import Mathlib

/-!
Verification of the heatmapping module of python-ternary
(`src/ternary/heatmapping.py`) against its specification.

The module is embedded shallowly:
* dictionary keys are tuples of Python ints, modelled as `List ℤ`;
* stored values are floats or `None`, modelled as `Option ℚ` (exact rational
  arithmetic stands in for Python float arithmetic);
* a dict is an association list with unique keys, looked up by key equality;
* code that can raise a Python exception returns `Except Err`.

The drawing collaborators (matplotlib axes, colormaps, colorbar) are external
to the module and are not modelled; the render driver returns the list of
(vertices, value) cells it would fill, together with the resolved color range.
-/

namespace TernaryHeatmap

/-- A dictionary key: a tuple of ints, `(i, j)` or `(i, j, k)`. -/
abbrev Key := List ℤ

/-- A stored value: a float or Python `None` (modelled as `none`). -/
abbrev Value := Option ℚ

/-- A value mapping: models the Python dict from keys to float-or-None values.
Keys are unique (dict semantics). -/
abbrev Data := List (Key × Value)

/-- The Python exceptions the embedded fragment can raise. -/
inductive Err where
  /-- `ValueError` from `min()`/`max()` of an empty sequence. -/
  | emptySeq
  /-- `IndexError` from indexing an empty or too-short sequence. -/
  | indexError
  /-- `TypeError` from adding `None` to a number. -/
  | typeError
  /-- The module's only explicit `raise`: `ValueError` for a bad style string. -/
  | invalidStyle
  deriving DecidableEq, Repr

/-- Python comparison of int tuples (used by `sorted(data.items())`; dict keys
are unique, so the values of the items are never compared): lexicographic,
with a shorter tuple ordered before its extensions. -/
def tupleLe : List ℤ → List ℤ → Bool
  | [], _ => true
  | _ :: _, [] => false
  | x :: xs, y :: ys => if x < y then true else if y < x then false else tupleLe xs ys

/-- Ordering of dict items by key, as `sorted(data.items())` orders them. -/
def itemLe (a b : Key × Value) : Prop := tupleLe a.1 b.1 = true

instance : DecidableRel itemLe := fun a b => by unfold itemLe; infer_instance

/-- `sorted(data.items())`. -/
def sortItems (data : Data) : Data := List.insertionSort itemLe data

instance : IsTotal (Key × Value) itemLe :=
  ⟨fun a b => by
    unfold itemLe
    have htot : ∀ xs ys : List ℤ,
        tupleLe xs ys = true ∨ tupleLe ys xs = true := by
      intro xs
      induction xs with
      | nil => intro ys; left; rfl
      | cons x xs ih =>
        intro ys
        cases ys with
        | nil => right; rfl
        | cons y ys =>
          rcases lt_trichotomy x y with h | h | h
          · left; simp [tupleLe, h]
          · subst h
            rcases ih ys with h' | h' <;> [left; right] <;>
              simp [tupleLe, h', lt_irrefl]
          · right; simp [tupleLe, h]
    exact htot a.1 b.1⟩

instance : IsTrans (Key × Value) itemLe :=
  ⟨fun a b c => by
    unfold itemLe
    have htr : ∀ xs ys zs : List ℤ, tupleLe xs ys = true →
        tupleLe ys zs = true → tupleLe xs zs = true := by
      intro xs
      induction xs with
      | nil => intro ys zs _ _; rfl
      | cons x xs ih =>
        intro ys zs hxy hyz
        cases ys with
        | nil => simp [tupleLe] at hxy
        | cons y ys =>
          cases zs with
          | nil => simp [tupleLe] at hyz
          | cons z zs =>
            simp only [tupleLe] at hxy hyz ⊢
            rcases lt_trichotomy x y with h1 | h1 | h1
            · rcases lt_trichotomy y z with h2 | h2 | h2
              · simp [show x < z from h1.trans h2]
              · subst h2; simp [h1]
              · simp [h2, asymm h2] at hyz
            · subst h1
              rcases lt_trichotomy x z with h2 | h2 | h2
              · simp [h2]
              · subst h2
                simp [lt_irrefl] at hxy hyz ⊢
                exact ih _ _ hxy hyz
              · simp [h2, asymm h2] at hyz
            · simp [h1, asymm h1] at hxy
    exact htr a.1 b.1 c.1⟩

/-- Python sequence indexing `xs[n]` for `n ≥ 0` (`IndexError` out of range). -/
def pyGet (xs : List ℤ) (n : ℕ) : Except Err ℤ :=
  match xs.get? n with
  | some x => .ok x
  | none => .error .indexError

/-- The body of `sum(data[key] for key in keys)` in `blend_value`, followed by
the division by 3.  The keys are consumed left to right, as the generator
feeding `sum` evaluates them: a missing key raises `KeyError`, which the
caller's `try` catches (result `None`); a key present with stored value `None`
makes the running addition raise an uncaught `TypeError`. -/
def blendSum (data : Data) : List Key → ℚ → Except Err Value
  | [], acc => .ok (some (acc / 3))
  | key :: rest, acc =>
    match data.lookup key with
    | none => .ok none
    | some none => .error .typeError
    | some (some v) => blendSum data rest (acc + v)

/-- `blend_value(data, i, j, k, keys=None)`: averages the three vertex values
of the upright triangle anchored at `(i, j, k)` (or of a caller-supplied key
list), truncating each key to the width of the mapping's first key
(`key_size = len(data.keys()[0])`, which raises on an empty mapping; Python's
`if not keys` treats an empty key list like an absent one). -/
def blend_value (data : Data) (i j k : ℤ) (keys : Option (List Key)) :
    Except Err Value :=
  match data with
  | [] => .error .indexError
  | (key₀, _) :: _ =>
    let key_size := key₀.length
    let keys₁ :=
      match keys with
      | none => [[i, j, k], [i + 1, j, k - 1], [i, j + 1, k - 1]]
      | some ks =>
        if ks.isEmpty then [[i, j, k], [i + 1, j, k - 1], [i, j + 1, k - 1]] else ks
    blendSum data (keys₁.map (fun key => key.take key_size)) 0

/-- `alt_blend_value(data, i, j, k)`: the same averaging over the inverted
triangle's corner keys, delegating to `blend_value` with an explicit list. -/
def alt_blend_value (data : Data) (i j k : ℤ) : Except Err Value :=
  blend_value data i j k
    (some [[i, j + 1, k - 1], [i + 1, j + 1, k], [i + 1, j, k - 1]])

/-- `triangle_coordinates(i, j, k)`: the upright triangle's lattice vertices. -/
def triangle_coordinates (i j k : ℤ) : List (ℤ × ℤ × ℤ) :=
  [(i, j, k), (i + 1, j, k - 1), (i, j + 1, k - 1)]

/-- `alt_triangle_coordinates(i, j, k)`: the inverted triangle's vertices. -/
def alt_triangle_coordinates (i j k : ℤ) : List (ℤ × ℤ × ℤ) :=
  [(i, j + 1, k - 1), (i + 1, j + 1, k), (i + 1, j, k - 1)]

/-- An unprojected 3-vector of the drawing computation (numpy array of
rationals). -/
abbrev Q3 := ℚ × ℚ × ℚ

/-- Componentwise vector addition (numpy `+`). -/
def vadd (a b : Q3) : Q3 := (a.1 + b.1, a.2.1 + b.2.1, a.2.2 + b.2.2)

/-- Componentwise vector subtraction (numpy `-`). -/
def vsub (a b : Q3) : Q3 := (a.1 - b.1, a.2.1 - b.2.1, a.2.2 - b.2.2)

/-- `_alpha = [-1/3, 2/3, 0]`. -/
def alphaVec : Q3 := (-(1 / 3), 2 / 3, 0)

/-- `_deltaup = [1/3, 1/3, 0]`. -/
def deltaup : Q3 := (1 / 3, 1 / 3, 0)

/-- `_deltadown = [2/3, -1/3, 0]`. -/
def deltadown : Q3 := (2 / 3, -(1 / 3), 0)

/-- `_i_vec = [0, 1, -1] / 2`. -/
def i_vec : Q3 := (0, 1 / 2, -(1 / 2))

/-- `_i_vec_down = [1, -1, 0] / 2`. -/
def i_vec_down : Q3 := (1 / 2, -(1 / 2), 0)

/-- `_deltaX_vec = [1, 0, -1] / 2`. -/
def deltaX_vec : Q3 := (1 / 2, 0, -(1 / 2))

/-- `hexagon_coordinates(i, j, k)`: the clipped/full hexagon around a lattice
point, by the source's case order (three corners, then three edges, then the
interior). -/
def hexagon_coordinates (i j k : ℤ) : List Q3 :=
  let ij : Q3 := ((i : ℚ), (j : ℚ), (k : ℚ))
  if j = i + j + k then
    [ij, vadd ij i_vec_down, vsub ij alphaVec, vsub ij i_vec]
  else if k = i + j + k then
    [ij, vadd ij i_vec, vadd ij deltaup, vadd ij deltaX_vec]
  else if i = i + j + k then
    [ij, vsub ij deltaX_vec, vsub ij deltadown, vsub ij i_vec_down]
  else if j = 0 then
    [vsub ij deltaX_vec, vsub ij deltadown, vadd ij alphaVec, vadd ij deltaup,
      vadd ij deltaX_vec]
  else if i = 0 then
    [vadd ij i_vec, vadd ij deltaup, vadd ij deltadown, vsub ij alphaVec,
      vsub ij i_vec]
  else if k = 0 then
    [vadd ij i_vec_down, vsub ij alphaVec, vsub ij deltaup, vsub ij deltadown,
      vsub ij i_vec_down]
  else
    [vadd ij alphaVec, vadd ij deltaup, vadd ij deltadown, vsub ij alphaVec,
      vsub ij deltaup, vsub ij deltadown]

/-- Embedding of a Python int triple into the numeric vertex space. -/
def toQ3 (v : ℤ × ℤ × ℤ) : Q3 := ((v.1 : ℚ), (v.2.1 : ℚ), (v.2.2 : ℚ))

/-- The body of `polygon_iterator`'s `for key, value in sorted(data.items())`
loop, over the remaining items.  `project` stands for
`functools.partial(project_point, permutation=permutation)` from `helpers.py`
(outside this module) and is kept abstract.  On a Python exception the
polygons already yielded lazily are discarded here rather than modelled as
partial output; no claim concerns partially drawn output. -/
def iterItems {α : Type} (project : Q3 → α) (data : Data) (scale : ℤ)
    (style : Char) : List (Key × Value) → Except Err (List (List α × Value))
  | [] => .ok []
  | (key, value) :: rest =>
    match value with
    | none => iterItems project data scale style rest
    | some v =>
      match pyGet key 0 with
      | .error e => .error e
      | .ok i =>
        match pyGet key 1 with
        | .error e => .error e
        | .ok j =>
          if style = 'h' then
            match iterItems project data scale style rest with
            | .error e => .error e
            | .ok tail =>
              .ok (((hexagon_coordinates i j (scale - i - j)).map project,
                some v) :: tail)
          else if style = 'd' then
            match blend_value data i j (scale - i - j) none with
            | .error e => .error e
            | .ok bv =>
              match iterItems project data scale style rest with
              | .error e => .error e
              | .ok tail =>
                .ok (((triangle_coordinates i j (scale - i - j)).map
                      (fun p => project (toQ3 p)), some v) ::
                  ((alt_triangle_coordinates i j (scale - i - j)).map
                      (fun p => project (toQ3 p)), bv) :: tail)
          else if style = 't' then
            match blend_value data i j (scale - i - j) none with
            | .error e => .error e
            | .ok bv =>
              if i = scale then
                match iterItems project data scale style rest with
                | .error e => .error e
                | .ok tail =>
                  .ok (((triangle_coordinates i j (scale - i - j)).map
                    (fun p => project (toQ3 p)), bv) :: tail)
              else
                match alt_blend_value data i j (scale - i - j) with
                | .error e => .error e
                | .ok abv =>
                  match iterItems project data scale style rest with
                  | .error e => .error e
                  | .ok tail =>
                    .ok (((triangle_coordinates i j (scale - i - j)).map
                        (fun p => project (toQ3 p)), bv) ::
                      ((alt_triangle_coordinates i j (scale - i - j)).map
                        (fun p => project (toQ3 p)), abv) :: tail)
          else iterItems project data scale style rest

/-- `polygon_iterator(data, scale, style, permutation)`: iterate the sorted
items and yield (projected polygon, value) pairs per style. -/
def polygon_iterator {α : Type} (project : Q3 → α) (data : Data) (scale : ℤ)
    (style : Char) : Except Err (List (List α × Value)) :=
  iterItems project data scale style (sortItems data)

/-- Python truthiness of the `vmin`/`vmax` arguments: `None` and `0.0` are
falsy (`if not vmin:`). -/
def pyFalsy : Option ℚ → Bool
  | none => true
  | some x => x = 0

/-- Python 2 `<` between dict values: `None` orders below every number. -/
def noneLt : Value → Value → Bool
  | none, none => false
  | none, some _ => true
  | some _, none => false
  | some x, some y => x < y

/-- Python 2 `min` over dict values (`ValueError` on an empty sequence; keeps
the first minimal element). -/
def pyMin (l : List Value) : Except Err Value :=
  match l with
  | [] => .error .emptySeq
  | x :: xs => .ok (xs.foldl (fun acc v => if noneLt v acc then v else acc) x)

/-- Python 2 `max` over dict values (`ValueError` on an empty sequence; keeps
the first maximal element). -/
def pyMax (l : List Value) : Except Err Value :=
  match l with
  | [] => .error .emptySeq
  | x :: xs => .ok (xs.foldl (fun acc v => if noneLt acc v then v else acc) x)

/-- `if not vmin: vmin = min(data.values())` in `heatmap`. -/
def resolveVmin (vmin : Option ℚ) (data : Data) : Except Err Value :=
  if pyFalsy vmin then pyMin (data.map (fun kv => kv.2)) else .ok vmin

/-- `if not vmax: vmax = max(data.values())` in `heatmap`. -/
def resolveVmax (vmax : Option ℚ) (data : Data) : Except Err Value :=
  if pyFalsy vmax then pyMax (data.map (fun kv => kv.2)) else .ok vmax

/-- `style.lower()[0]` (`IndexError` on the empty string). -/
def styleChar (style : String) : Except Err Char :=
  match style.toLower.data.head? with
  | some c => .ok c
  | none => .error .indexError

/-- The render driver `heatmap(data, scale, vmin, vmax, ..., style, ...)`:
resolves the color range, normalizes and validates the style, iterates the
polygons and keeps those with a defined value.  The colormap lookup, the
value-to-color mapping, the actual polygon fills and the colorbar are external
collaborators; the driver is modelled as returning the resolved
`(vmin, vmax)` and the list of (vertices, value) cells it fills. -/
def heatmap {α : Type} (project : Q3 → α) (data : Data) (scale : ℤ)
    (vmin vmax : Option ℚ) (style : String) :
    Except Err (Value × Value × List (List α × ℚ)) :=
  match resolveVmin vmin data with
  | .error e => .error e
  | .ok vminR =>
    match resolveVmax vmax data with
    | .error e => .error e
    | .ok vmaxR =>
      match styleChar style with
      | .error e => .error e
      | .ok c =>
        if c ∈ (['t', 'h', 'd'] : List Char) then
          match polygon_iterator project data scale c with
          | .error e => .error e
          | .ok cells =>
            .ok (vminR, vmaxR, cells.filterMap (fun cell =>
              match cell.2 with
              | none => none
              | some q => some (cell.1, q)))
        else .error .invalidStyle

/-- Modelled from the spec: `project_point` (in `helpers.py`, outside this
module) maps a triple `(a, b, c)` to the plane point `(a + b/2, √3/2 · b)`,
which depends only on the first two coordinates and is an affine bijection of
the `(a, b)`-plane; containment and tiling statements are invariant under such
a map, so the projection is represented by the `(a, b)` pair itself. -/
def proj2 (v : ℤ × ℤ × ℤ) : ℤ × ℤ := (v.1, v.2.1)

/-- All vertices of a projected polygon lie in the closed simplex of scale
`n`: `0 ≤ a`, `0 ≤ b`, `a + b ≤ n` in the coordinates of `proj2`.  For a
triangle this is equivalent to the triangle being contained in the simplex,
the simplex being convex. -/
def inSimplex (n : ℤ) (l : List (ℤ × ℤ)) : Prop :=
  ∀ v ∈ l, 0 ≤ v.1 ∧ 0 ≤ v.2 ∧ v.1 + v.2 ≤ n

/-- Embedding of a projected lattice vertex into the rational plane. -/
def toQ2 (v : ℤ × ℤ) : ℚ × ℚ := ((v.1 : ℚ), (v.2 : ℚ))

/-- Modelled from the spec: the closed triangle a 3-vertex polygon occupies in
the drawing plane (in `proj2` coordinates) — the convex combinations of its
three vertices.  A polygon that is not a 3-vertex list occupies nothing. -/
def inClosedTri (l : List (ℤ × ℤ)) (p : ℚ × ℚ) : Prop :=
  match l with
  | [v₁, v₂, v₃] =>
    ∃ l₁ l₂ l₃ : ℚ, 0 ≤ l₁ ∧ 0 ≤ l₂ ∧ 0 ≤ l₃ ∧ l₁ + l₂ + l₃ = 1 ∧
      p.1 = l₁ * (toQ2 v₁).1 + l₂ * (toQ2 v₂).1 + l₃ * (toQ2 v₃).1 ∧
      p.2 = l₁ * (toQ2 v₁).2 + l₂ * (toQ2 v₂).2 + l₃ * (toQ2 v₃).2
  | _ => False

/-- Modelled from the spec: the open interior of the triangle — the strictly
positive convex combinations of its three vertices.  Two triangles overlap
when they share an interior point. -/
def inOpenTri (l : List (ℤ × ℤ)) (p : ℚ × ℚ) : Prop :=
  match l with
  | [v₁, v₂, v₃] =>
    ∃ l₁ l₂ l₃ : ℚ, 0 < l₁ ∧ 0 < l₂ ∧ 0 < l₃ ∧ l₁ + l₂ + l₃ = 1 ∧
      p.1 = l₁ * (toQ2 v₁).1 + l₂ * (toQ2 v₂).1 + l₃ * (toQ2 v₃).1 ∧
      p.2 = l₁ * (toQ2 v₁).2 + l₂ * (toQ2 v₂).2 + l₃ * (toQ2 v₃).2
  | _ => False

/-- Refinement reference, following the claim's words for the dual-triangular
style as corrected: for a retained anchor, first the upright triangle paired
with the raw stored value, then the inverted triangle paired with the
plain-form blended value `blend_value(data, i, j, k)`, both emitted
unconditionally; an entry with undefined value contributes nothing. -/
def emitDual {α : Type} (project : Q3 → α) (data : Data) (scale : ℤ) :
    Key × Value → Except Err (List (List α × Value))
  | (key, value) =>
    match value with
    | none => .ok []
    | some v =>
      match pyGet key 0 with
      | .error e => .error e
      | .ok i =>
        match pyGet key 1 with
        | .error e => .error e
        | .ok j =>
          match blend_value data i j (scale - i - j) none with
          | .error e => .error e
          | .ok bv =>
            .ok [((triangle_coordinates i j (scale - i - j)).map
                (fun p => project (toQ3 p)), some v),
              ((alt_triangle_coordinates i j (scale - i - j)).map
                (fun p => project (toQ3 p)), bv)]

/-- Refinement reference, following the claim's words for the triangular
style: for a retained anchor, the upright triangle with its plain-form
blended value, then, unless `i = scale` (the boundary row), the inverted
triangle with its alternate blended value; an entry with undefined value
contributes nothing. -/
def emitTri {α : Type} (project : Q3 → α) (data : Data) (scale : ℤ) :
    Key × Value → Except Err (List (List α × Value))
  | (key, value) =>
    match value with
    | none => .ok []
    | some _ =>
      match pyGet key 0 with
      | .error e => .error e
      | .ok i =>
        match pyGet key 1 with
        | .error e => .error e
        | .ok j =>
          match blend_value data i j (scale - i - j) none with
          | .error e => .error e
          | .ok bv =>
            if i = scale then
              .ok [((triangle_coordinates i j (scale - i - j)).map
                (fun p => project (toQ3 p)), bv)]
            else
              match alt_blend_value data i j (scale - i - j) with
              | .error e => .error e
              | .ok abv =>
                .ok [((triangle_coordinates i j (scale - i - j)).map
                    (fun p => project (toQ3 p)), bv),
                  ((alt_triangle_coordinates i j (scale - i - j)).map
                    (fun p => project (toQ3 p)), abv)]

/-- Sequencing of per-item outputs over the enumerated items: stop at the
first exception, otherwise concatenate the per-item yields in order. -/
def emitAll {α : Type} (f : Key × Value → Except Err (List (List α × Value))) :
    List (Key × Value) → Except Err (List (List α × Value))
  | [] => .ok []
  | kv :: rest =>
    match f kv with
    | .error e => .error e
    | .ok out =>
      match emitAll f rest with
      | .error e => .error e
      | .ok tail => .ok (out ++ tail)

/-- Refinement reference, following the claim's words: the class index of a
lattice point among the seven cases, with corner checks taking precedence
over edge checks, in the source's order (corners j, k, i, then edges
j, i, k, then interior).  `0, 1, 2` are the corners, `3, 4, 5` the edges,
`6` the interior. -/
def hexClass (i j k : ℤ) : ℕ :=
  if j = i + j + k then 0
  else if k = i + j + k then 1
  else if i = i + j + k then 2
  else if j = 0 then 3
  else if i = 0 then 4
  else if k = 0 then 5
  else 6

/-- Refinement reference, following the claim's words: the seven cases as
unguarded predicates — a corner when one coordinate equals the scale
`i + j + k`, an edge when one coordinate is zero and the point is not a
corner, interior when no coordinate is zero. -/
def hexCase (i j k : ℤ) (t : ℕ) : Prop :=
  if t = 0 then j = i + j + k
  else if t = 1 then k = i + j + k
  else if t = 2 then i = i + j + k
  else if t = 3 then
    j = 0 ∧ ¬(i = i + j + k ∨ j = i + j + k ∨ k = i + j + k)
  else if t = 4 then
    i = 0 ∧ ¬(i = i + j + k ∨ j = i + j + k ∨ k = i + j + k)
  else if t = 5 then
    k = 0 ∧ ¬(i = i + j + k ∨ j = i + j + k ∨ k = i + j + k)
  else i ≠ 0 ∧ j ≠ 0 ∧ k ≠ 0

/-- The vertex count the claim assigns to each class: 4 for the corners,
5 for the edges, 6 for the interior hexagon. -/
def hexCount (t : ℕ) : ℕ :=
  if t < 3 then 4 else if t < 6 then 5 else 6

instance {ε α : Type} [DecidableEq ε] [DecidableEq α] :
    DecidableEq (Except ε α) := fun a b =>
  match a, b with
  | .error e, .error f =>
    if h : e = f then isTrue (by rw [h])
    else isFalse (fun hh => by cases hh; exact h rfl)
  | .error _, .ok _ => isFalse (fun hh => Except.noConfusion hh)
  | .ok _, .error _ => isFalse (fun hh => Except.noConfusion hh)
  | .ok x, .ok y =>
    if h : x = y then isTrue (by rw [h])
    else isFalse (fun hh => by cases hh; exact h rfl)

instance (n : ℤ) (l : List (ℤ × ℤ)) : Decidable (inSimplex n l) := by
  unfold inSimplex; infer_instance

/-! ### Concrete example data -/

/-- The spec's end-to-end mapping `{(0,0): 1.0, (1,0): 2.0, (0,1): 3.0}`. -/
def data3 : Data := [([0, 0], some 1), ([1, 0], some 2), ([0, 1], some 3)]

/-- A mapping separating the plain and the alternate blended value at the
anchor `(0, 0)` of scale 1. -/
def dataD : Data :=
  [([0, 0], some 0), ([1, 0], some 0), ([0, 1], some 0), ([1, 1], some 9)]

/-- A mapping with the key `(0,0)` stored with value `None` and the key
`(0,1)` absent. -/
def dataN : Data := [([0, 0], none), ([1, 0], some 1)]

/-- A mapping where all three upright-triangle keys of anchor `(0,0,0)` are
present but one stores `None`. -/
def dataP : Data := [([0, 0], some 1), ([1, 0], none), ([0, 1], some 2)]

/-! ### C7 -/

/--
C7: for the mapping `{(0,0): 1.0, (1,0): 2.0, (0,1): 3.0}` at scale 1 with
style `'triangular'`, the rendered output is exactly one upright triangle,
anchored at `(0, 0)` (vertices `(0,0,1), (1,0,0), (0,1,0)`), with blended
value `(1 + 2 + 3)/3 = 2`, and no inverted triangle is rendered (every
inverted triangle the iterator produces carries an undefined value and is
dropped before drawing).  The resolved range is `vmin = 1`, `vmax = 3`.
-/
theorem C7_triangular_end_to_end :
    heatmap (fun p => p) data3 1 none none "triangular" =
      .ok (some 1, some 3,
        [([((0 : ℚ), (0 : ℚ), (1 : ℚ)), (1, 0, 0), (0, 1, 0)], 2)]) := by
  with_unfolding_all rfl

/-! ### C1 counterexample -/

/--
C1 counterexample: with the mapping `dataD` at scale 1 in dual-triangular
style, the inverted triangle of anchor `(0, 0)` (the second yielded polygon)
is paired with value `0`, the plain-form `blend_value` average, whereas the
alt-form blended value of that anchor is `3`; so the claim that the inverted
triangle is paired with the alt-form blended value is false.
-/
theorem C1_counterexample :
    (polygon_iterator (fun _ => ()) dataD 1 'd').map
        (fun l => l.map (fun c => c.2)) =
      .ok [some 0, some 0, some 0, none, some 0, none, some 9, none] ∧
    alt_blend_value dataD 0 0 1 = .ok (some 3) ∧
    (some (0 : ℚ) : Value) ≠ some 3 := by
  refine ⟨by with_unfolding_all rfl, by with_unfolding_all rfl,
    by with_unfolding_all decide⟩

/-! ### C2 counterexample -/

/--
C2 counterexample: for the mapping `dataN` and anchor `(0, 0, 0)` the third
truncated key `(0, 1)` is absent, yet `blend_value` does not return the
undefined value: the first key `(0, 0)` is present with stored value `None`,
so the summation raises `TypeError` before the absent key is reached.
-/
theorem C2_counterexample :
    dataN.lookup [0, 1] = none ∧
    blend_value dataN 0 0 0 none = .error .typeError ∧
    blend_value dataN 0 0 0 none ≠ .ok none := by
  refine ⟨by with_unfolding_all rfl, by with_unfolding_all rfl,
    by with_unfolding_all decide⟩

/-! ### C8 counterexample -/

/--
C8 counterexample: at scale 1 the anchor `(i, j) = (1, 0)` satisfies the
claimed enumeration bound `k = scale - i - j ≥ 0`, yet the upright triangle
generated there is not contained in the simplex of scale 1 (its vertex
projecting to `(2, 0)` lies outside), so the enumerated triangles do not form
an exact tiling of the simplex: their union properly exceeds it.
-/
theorem C8_counterexample :
    (0 ≤ (1 : ℤ) ∧ 0 ≤ (0 : ℤ) ∧ 0 ≤ (1 : ℤ) - 1 - 0) ∧
    ¬ inSimplex 1 ((triangle_coordinates 1 0 (1 - 1 - 0)).map proj2) := by
  refine ⟨by decide, by decide⟩

/-! ### Iterator characterization -/

theorem iterItems_dual_eq {α : Type} (project : Q3 → α) (data : Data)
    (scale : ℤ) : ∀ l, iterItems project data scale 'd' l =
      emitAll (emitDual project data scale) l := by
  intro l
  induction l with
  | nil => rfl
  | cons kv rest ih =>
    obtain ⟨key, value⟩ := kv
    rcases value with _ | v
    · simp only [iterItems, emitAll, emitDual, ih]
      rcases emitAll (emitDual project data scale) rest with e | tail <;> rfl
    · simp only [iterItems, emitAll, emitDual]
      rcases h0 : pyGet key 0 with e | i
      · rfl
      rcases h1 : pyGet key 1 with e1 | j
      · rfl
      simp only []
      rcases hb : blend_value data i j (scale - i - j) none with e2 | bv
      · simp [hb]
      rw [ih]
      rcases emitAll (emitDual project data scale) rest with e | tail <;> simp [hb]

theorem iterItems_tri_eq {α : Type} (project : Q3 → α) (data : Data)
    (scale : ℤ) : ∀ l, iterItems project data scale 't' l =
      emitAll (emitTri project data scale) l := by
  intro l
  induction l with
  | nil => rfl
  | cons kv rest ih =>
    obtain ⟨key, value⟩ := kv
    rcases value with _ | v
    · simp only [iterItems, emitAll, emitTri, ih]
      rcases emitAll (emitTri project data scale) rest with e | tail <;> rfl
    · simp only [iterItems, emitAll, emitTri]
      rcases h0 : pyGet key 0 with e | i
      · rfl
      rcases h1 : pyGet key 1 with e1 | j
      · rfl
      rcases hb : blend_value data i j (scale - i - j) none with e2 | bv
      · simp [hb]
      by_cases hi : i = scale
      · rw [ih]
        rcases emitAll (emitTri project data scale) rest with e | tail <;>
          simp [hb, if_pos hi]
      · rcases ha : alt_blend_value data i j (scale - i - j) with e3 | abv
        · simp [hb, ha, if_neg hi]
        rw [ih]
        rcases emitAll (emitTri project data scale) rest with e | tail <;>
          simp [hb, ha, if_neg hi]

/-! ### C1 (amended) -/

/--
C1 amended: for every value mapping, scale, and retained anchor iterated in
dual-triangular style, the cell iterator yields the upright triangle paired
with the raw stored value of the anchor, and then the inverted triangle
paired with the plain-form blended value `blend_value(data, i, j, k)` — the
average over the upright triangle's corner keys `(i, j, k)`,
`(i+1, j, k-1)`, `(i, j+1, k-1)` — not the alt-form value; both are emitted
unconditionally for every retained anchor, as `emitDual` spells out.
-/
theorem C1_dual_amended {α : Type} (project : Q3 → α) (data : Data)
    (scale : ℤ) :
    polygon_iterator project data scale 'd' =
      emitAll (emitDual project data scale) (sortItems data) :=
  iterItems_dual_eq project data scale (sortItems data)

/-- Witness for C1's amended theorem at the concrete mapping `dataD`. -/
theorem C1_dual_amended_witness :
    polygon_iterator (fun p => p) dataD 1 'd' =
      emitAll (emitDual (fun p => p) dataD 1) (sortItems dataD) :=
  C1_dual_amended (fun p => p) dataD 1

/-! ### C5 -/

/--
C5: for every value mapping, scale, and projection, the triangular-style cell
iterator enumerates the mapping's entries in ascending sorted key order
(`sortItems data` is a permutation of the entries, sorted under the Python
tuple order), and processes them as `emitTri` spells out: entries with an
undefined stored value contribute nothing, and every retained anchor yields
the upright triangle with its plain-form blended value and then, unless
`i = scale` (the boundary row), the inverted triangle with its alternate
blended value.
-/
theorem C5_triangular_iteration {α : Type} (project : Q3 → α) (data : Data)
    (scale : ℤ) :
    List.Sorted itemLe (sortItems data) ∧
    (sortItems data).Perm data ∧
    polygon_iterator project data scale 't' =
      emitAll (emitTri project data scale) (sortItems data) :=
  ⟨List.sorted_insertionSort itemLe data,
   List.perm_insertionSort itemLe data,
   iterItems_tri_eq project data scale (sortItems data)⟩

/-! ### Blending lemmas -/

theorem blendSum_mean (data : Data) (t₁ t₂ t₃ : Key) (a b c acc : ℚ)
    (h1 : data.lookup t₁ = some (some a)) (h2 : data.lookup t₂ = some (some b))
    (h3 : data.lookup t₃ = some (some c)) :
    blendSum data [t₁, t₂, t₃] acc = .ok (some ((acc + a + b + c) / 3)) := by
  simp [blendSum, h1, h2, h3]

theorem blendSum_absent (data : Data) :
    ∀ (ts : List Key) (acc : ℚ), (∃ t ∈ ts, data.lookup t = none) →
      (∀ t ∈ ts, data.lookup t ≠ some none) →
      blendSum data ts acc = .ok none := by
  intro ts
  induction ts with
  | nil => rintro acc ⟨t, ht, _⟩ _; simp at ht
  | cons t₀ ts ih =>
    intro acc hex hnn
    rcases hl : data.lookup t₀ with _ | ov
    · simp [blendSum, hl]
    · rcases ov with _ | q
      · exact absurd hl (hnn t₀ (by simp))
      · rcases hex with ⟨t, ht, htnone⟩
        rcases List.mem_cons.mp ht with rfl | ht'
        · rw [hl] at htnone; cases htnone
        · simp only [blendSum, hl]
          exact ih (acc + q) ⟨t, ht', htnone⟩ (fun u hu => hnn u (List.mem_cons_of_mem _ hu))

theorem blendSum_typeError (data : Data) :
    ∀ (ts : List Key) (acc : ℚ), (∀ t ∈ ts, data.lookup t ≠ none) →
      (∃ t ∈ ts, data.lookup t = some none) →
      blendSum data ts acc = .error .typeError := by
  intro ts
  induction ts with
  | nil => rintro acc _ ⟨t, ht, _⟩; simp at ht
  | cons t₀ ts ih =>
    intro acc hpres hex
    rcases hl : data.lookup t₀ with _ | ov
    · exact absurd hl (hpres t₀ (by simp))
    · rcases ov with _ | q
      · simp [blendSum, hl]
      · rcases hex with ⟨t, ht, htnone⟩
        rcases List.mem_cons.mp ht with rfl | ht'
        · rw [hl] at htnone; cases htnone
        · simp only [blendSum, hl]
          exact ih (acc + q) (fun u hu => hpres u (List.mem_cons_of_mem _ hu))
            ⟨t, ht', htnone⟩

/-! ### C2 (amended) -/

/--
C2 amended: for every value mapping (written `(k₀, v₀) :: tl`, so that the
key width `k₀.length` of the mapping's first key is explicit) and every
anchor `(i, j, k)`:
`blend_value` returns exactly the arithmetic mean (sum divided by 3) of the
three values addressed by the truncations of `(i, j, k)`, `(i+1, j, k-1)`,
`(i, j+1, k-1)` when all three truncated keys are present with defined
values; it returns the undefined value when one of the three keys is absent,
provided every present key among the three holds a defined value (a present
key storing `None` raises a type error instead, see C9); and
`alt_blend_value` is the same computation over the inverted triangle's corner
keys `(i, j+1, k-1)`, `(i+1, j+1, k)`, `(i+1, j, k-1)`, by delegating to
`blend_value` with that explicit key list.
-/
theorem C2_blend_value_spec (k₀ : Key) (v₀ : Value) (tl : Data) (i j k : ℤ) :
    (∀ a b c : ℚ,
      (((k₀, v₀) :: tl : Data)).lookup (List.take k₀.length [i, j, k]) =
          some (some a) →
      (((k₀, v₀) :: tl : Data)).lookup (List.take k₀.length [i + 1, j, k - 1]) =
          some (some b) →
      (((k₀, v₀) :: tl : Data)).lookup (List.take k₀.length [i, j + 1, k - 1]) =
          some (some c) →
      blend_value ((k₀, v₀) :: tl) i j k none = .ok (some ((a + b + c) / 3))) ∧
    ((∃ t ∈ [List.take k₀.length [i, j, k], List.take k₀.length [i + 1, j, k - 1],
        List.take k₀.length [i, j + 1, k - 1]],
        (((k₀, v₀) :: tl : Data)).lookup t = none) →
     (∀ t ∈ [List.take k₀.length [i, j, k], List.take k₀.length [i + 1, j, k - 1],
        List.take k₀.length [i, j + 1, k - 1]],
        (((k₀, v₀) :: tl : Data)).lookup t ≠ some none) →
     blend_value ((k₀, v₀) :: tl) i j k none = .ok none) ∧
    (alt_blend_value ((k₀, v₀) :: tl) i j k =
      blend_value ((k₀, v₀) :: tl) i j k
        (some [[i, j + 1, k - 1], [i + 1, j + 1, k], [i + 1, j, k - 1]])) ∧
    (∀ a b c : ℚ,
      (((k₀, v₀) :: tl : Data)).lookup (List.take k₀.length [i, j + 1, k - 1]) =
          some (some a) →
      (((k₀, v₀) :: tl : Data)).lookup (List.take k₀.length [i + 1, j + 1, k]) =
          some (some b) →
      (((k₀, v₀) :: tl : Data)).lookup (List.take k₀.length [i + 1, j, k - 1]) =
          some (some c) →
      alt_blend_value ((k₀, v₀) :: tl) i j k = .ok (some ((a + b + c) / 3))) := by
  refine ⟨?_, ?_, rfl, ?_⟩
  · intro a b c h1 h2 h3
    have := blendSum_mean ((k₀, v₀) :: tl) _ _ _ a b c 0 h1 h2 h3
    simp only [blend_value, List.map]
    rw [this]
    norm_num
  · intro hex hnn
    simp only [blend_value, List.map]
    exact blendSum_absent _ _ 0 (by simpa using hex) (by simpa using hnn)
  · intro a b c h1 h2 h3
    have := blendSum_mean ((k₀, v₀) :: tl) _ _ _ a b c 0 h1 h2 h3
    simp only [alt_blend_value, blend_value, List.map, List.isEmpty]
    rw [this]
    norm_num

/-- Witness for C2's amended theorem: for the mapping
`{(0,0): 1, (1,0): 2, (0,1): 3}` and anchor `(0, 0, 1)` all three truncated
upright keys are present with defined values and the blend is `2`. -/
theorem C2_blend_value_spec_witness :
    blend_value [([0, 0], some 1), ([1, 0], some 2), ([0, 1], some 3)] 0 0 1
      none = .ok (some 2) := by
  have h := (C2_blend_value_spec [0, 0] (some 1)
    [([1, 0], some 2), ([0, 1], some 3)] 0 0 1).1 1 2 3
    (by with_unfolding_all rfl) (by with_unfolding_all rfl)
    (by with_unfolding_all rfl)
  rw [h]
  norm_num

/-! ### C9 -/

/--
C9: if all three truncated keys addressed by `blend_value`'s default key list
are present in the mapping but at least one of them stores the undefined
value, `blend_value` does not return the undefined value: the caught error
covers only absent keys, and the summation fails with an uncaught type
error.
-/
theorem C9_blend_value_typeerror (k₀ : Key) (v₀ : Value) (tl : Data)
    (i j k : ℤ)
    (h1 : (((k₀, v₀) :: tl : Data)).lookup (List.take k₀.length [i, j, k]) ≠ none)
    (h2 : (((k₀, v₀) :: tl : Data)).lookup
      (List.take k₀.length [i + 1, j, k - 1]) ≠ none)
    (h3 : (((k₀, v₀) :: tl : Data)).lookup
      (List.take k₀.length [i, j + 1, k - 1]) ≠ none)
    (hnone : (((k₀, v₀) :: tl : Data)).lookup (List.take k₀.length [i, j, k]) =
        some none ∨
      (((k₀, v₀) :: tl : Data)).lookup (List.take k₀.length [i + 1, j, k - 1]) =
        some none ∨
      (((k₀, v₀) :: tl : Data)).lookup (List.take k₀.length [i, j + 1, k - 1]) =
        some none) :
    blend_value ((k₀, v₀) :: tl) i j k none = .error .typeError ∧
    blend_value ((k₀, v₀) :: tl) i j k none ≠ .ok none := by
  have herr : blend_value ((k₀, v₀) :: tl) i j k none = .error .typeError := by
    simp only [blend_value, List.map]
    refine blendSum_typeError _ _ 0 ?_ ?_
    · intro t ht
      simp only [List.mem_cons, List.not_mem_nil, or_false] at ht
      rcases ht with rfl | rfl | rfl <;> assumption
    · rcases hnone with h | h | h
      · exact ⟨_, by simp, h⟩
      · exact ⟨_, by simp, h⟩
      · exact ⟨_, by simp, h⟩
  exact ⟨herr, by rw [herr]; exact fun hh => Except.noConfusion hh⟩

/-- Witness for C9 at the mapping `dataP`, whose key `(1, 0)` stores `None`
while all three addressed keys are present. -/
theorem C9_blend_value_typeerror_witness :
    blend_value [([0, 0], some 1), ([1, 0], none), ([0, 1], some 2)] 0 0 0
        none = .error .typeError ∧
    blend_value [([0, 0], some 1), ([1, 0], none), ([0, 1], some 2)] 0 0 0
        none ≠ .ok none :=
  C9_blend_value_typeerror [0, 0] (some 1) [([1, 0], none), ([0, 1], some 2)]
    0 0 0 (by with_unfolding_all decide) (by with_unfolding_all decide)
    (by with_unfolding_all decide)
    (Or.inr (Or.inl (by with_unfolding_all rfl)))

/-! ### Error provenance -/

theorem pyGet_error (xs : List ℤ) (n : ℕ) (e : Err) :
    pyGet xs n = .error e → e = .indexError := by
  unfold pyGet
  rcases xs.get? n with _ | x
  · intro h; cases h; rfl
  · intro h; cases h

theorem blendSum_error (data : Data) :
    ∀ (ts : List Key) (acc : ℚ) (e : Err), blendSum data ts acc = .error e →
      e = .typeError := by
  intro ts
  induction ts with
  | nil => intro acc e h; cases h
  | cons t ts ih =>
    intro acc e
    simp only [blendSum]
    rcases data.lookup t with _ | ov
    · intro h; cases h
    · rcases ov with _ | q
      · intro h; cases h; rfl
      · exact ih _ _

theorem blend_value_error (data : Data) (i j k : ℤ) (keys : Option (List Key))
    (e : Err) : blend_value data i j k keys = .error e →
      e = .indexError ∨ e = .typeError := by
  cases data with
  | nil => intro h; cases h; left; rfl
  | cons kv tl =>
    obtain ⟨k₀, v₀⟩ := kv
    simp only [blend_value]
    intro h
    exact Or.inr (blendSum_error _ _ _ _ h)

theorem iterItems_error_ne {α : Type} (project : Q3 → α) (data : Data)
    (scale : ℤ) (style : Char) :
    ∀ (l : List (Key × Value)) (e : Err),
      iterItems project data scale style l = .error e → e ≠ .invalidStyle := by
  intro l
  induction l with
  | nil => intro e h; cases h
  | cons kv rest ih =>
    intro e h
    obtain ⟨key, value⟩ := kv
    rcases value with _ | v
    · exact ih e h
    · rcases h0 : pyGet key 0 with e0 | i
      · simp [iterItems, h0] at h
        subst h
        rw [pyGet_error _ _ _ h0]
        simp
      · rcases h1 : pyGet key 1 with e1 | j
        · simp [iterItems, h0, h1] at h
          subst h
          rw [pyGet_error _ _ _ h1]
          simp
        · by_cases hsh : style = 'h'
          · subst hsh
            rcases hr : iterItems project data scale 'h' rest with er | tail
            · simp [iterItems, h0, h1, hr] at h
              exact h ▸ ih er hr
            · simp [iterItems, h0, h1, hr] at h
          · by_cases hsd : style = 'd'
            · subst hsd
              rcases hb : blend_value data i j (scale - i - j) none with e2 | bv
              · simp [iterItems, h0, h1, hb, hsh] at h
                subst h
                rcases blend_value_error _ _ _ _ _ _ hb with hE | hE <;>
                  rw [hE] <;> simp
              · rcases hr : iterItems project data scale 'd' rest with er | tail
                · simp [iterItems, h0, h1, hb, hr, hsh] at h
                  exact h ▸ ih er hr
                · simp [iterItems, h0, h1, hb, hr, hsh] at h
            · by_cases hst : style = 't'
              · subst hst
                rcases hb : blend_value data i j (scale - i - j) none with e2 | bv
                · simp [iterItems, h0, h1, hb, hsh, hsd] at h
                  subst h
                  rcases blend_value_error _ _ _ _ _ _ hb with hE | hE <;>
                    rw [hE] <;> simp
                · by_cases hi : i = scale
                  · rcases hr : iterItems project data scale 't' rest with er | tail
                    · simp [iterItems, h0, h1, hb, if_pos hi, hr, hsh, hsd] at h
                      exact h ▸ ih er hr
                    · simp [iterItems, h0, h1, hb, if_pos hi, hr, hsh, hsd] at h
                  · rcases ha : alt_blend_value data i j (scale - i - j) with e3 | abv
                    · simp [iterItems, h0, h1, hb, hi, ha, hsh, hsd] at h
                      subst h
                      rcases blend_value_error _ _ _ _ _ _ ha with hE | hE <;>
                        rw [hE] <;> simp
                    · rcases hr : iterItems project data scale 't' rest with er | tail
                      · simp [iterItems, h0, h1, hb, hi, ha, hr, hsh, hsd] at h
                        exact h ▸ ih er hr
                      · simp [iterItems, h0, h1, hb, hi, ha, hr, hsh, hsd] at h
              · simp only [iterItems, h0, h1] at h
                rw [if_neg hsh, if_neg hsd, if_neg hst] at h
                exact ih e h

theorem pyMin_error (l : List Value) (e : Err) :
    pyMin l = .error e → e = .emptySeq := by
  cases l with
  | nil => intro h; cases h; rfl
  | cons x xs => intro h; cases h

theorem pyMax_error (l : List Value) (e : Err) :
    pyMax l = .error e → e = .emptySeq := by
  cases l with
  | nil => intro h; cases h; rfl
  | cons x xs => intro h; cases h

theorem resolveVmin_error (vmin : Option ℚ) (data : Data) (e : Err) :
    resolveVmin vmin data = .error e → e = .emptySeq := by
  unfold resolveVmin
  by_cases hf : pyFalsy vmin
  · rw [if_pos hf]; exact pyMin_error _ _
  · rw [if_neg hf]; intro h; cases h

theorem resolveVmax_error (vmax : Option ℚ) (data : Data) (e : Err) :
    resolveVmax vmax data = .error e → e = .emptySeq := by
  unfold resolveVmax
  by_cases hf : pyFalsy vmax
  · rw [if_pos hf]; exact pyMax_error _ _
  · rw [if_neg hf]; intro h; cases h

/-! ### C10 -/

/--
C10: for an empty value mapping with `vmin` or `vmax` falsy (in particular
not supplied), `heatmap` fails while deriving the color range — `min`/`max`
of an empty value sequence — before the style string is validated, so an
empty mapping combined with an invalid style reports the range error and
never the invalid-style error; likewise `blend_value` applied to an empty
mapping fails when inspecting the width of the first key (`data.keys()[0]`)
rather than returning the undefined value.
-/
theorem C10_empty_mapping_errors {α : Type} (project : Q3 → α) (scale : ℤ)
    (vmin vmax : Option ℚ) (style : String)
    (h : pyFalsy vmin = true ∨ pyFalsy vmax = true) :
    (heatmap project ([] : Data) scale vmin vmax style = .error .emptySeq ∧
     heatmap project ([] : Data) scale vmin vmax style ≠ .error .invalidStyle) ∧
    (∀ (i j k : ℤ) (keys : Option (List Key)),
      blend_value ([] : Data) i j k keys = .error .indexError ∧
      blend_value ([] : Data) i j k keys ≠ .ok none) := by
  have hmain : heatmap project ([] : Data) scale vmin vmax style =
      .error .emptySeq := by
    rcases h with hv | hw
    · simp [heatmap, resolveVmin, hv, pyMin]
    · by_cases hf : pyFalsy vmin
      · simp [heatmap, resolveVmin, hf, pyMin]
      · simp [heatmap, resolveVmin, resolveVmax, hf, hw, pyMin, pyMax]
  refine ⟨⟨hmain, by rw [hmain]; intro hh; cases hh⟩, fun i j k keys => ⟨rfl,
    fun hh => Except.noConfusion hh⟩⟩

/-- Witness for C10: empty mapping, absent range bounds, invalid style
`"square"`; the range error is reported and `blend_value` fails with the
index error. -/
theorem C10_empty_mapping_errors_witness :
    (heatmap (fun p => p) ([] : Data) 1 none none "square" =
      .error .emptySeq) ∧
    blend_value ([] : Data) 0 0 0 none = .error .indexError :=
  ⟨((C10_empty_mapping_errors (fun p => p) 1 none none "square"
      (Or.inl rfl)).1).1,
   ((C10_empty_mapping_errors (fun p => p) 1 none none "square"
      (Or.inl rfl)).2 0 0 0 none).1⟩

/-! ### C6 -/

/--
C6: `heatmap` resolves its style argument by lowercasing it and matching on
its first letter — `"Hexagonal"`, `"hex"` and `"H"` all resolve to `'h'`,
`"triangular"` to `'t'`, `"dual-triangular"` to `'d'` — and for any style
string whose lowercased first letter is not one of `'t'`, `'h'`, `'d'` (such
as `"square"`, first letter `'s'`), `heatmap` fails with the invalid-argument
error before any polygon is produced (provided the color range resolved, as
range resolution precedes the style check); conversely, whenever the first
letter is one of the three recognized ones, `heatmap` never reports the
invalid-style error — it is the module's only explicit error condition, and
it fires exactly on an unrecognized style.
-/
theorem C6_style_resolution {α : Type} (project : Q3 → α) (data : Data)
    (scale : ℤ) (vmin vmax : Option ℚ) (style : String) (c : Char)
    (a b : Value) (hs : styleChar style = .ok c) :
    (styleChar "Hexagonal" = .ok 'h' ∧ styleChar "hex" = .ok 'h' ∧
     styleChar "H" = .ok 'h' ∧ styleChar "triangular" = .ok 't' ∧
     styleChar "dual-triangular" = .ok 'd' ∧ styleChar "square" = .ok 's' ∧
     ('s' : Char) ∉ (['t', 'h', 'd'] : List Char)) ∧
    (c ∉ (['t', 'h', 'd'] : List Char) →
      resolveVmin vmin data = .ok a → resolveVmax vmax data = .ok b →
      heatmap project data scale vmin vmax style = .error .invalidStyle) ∧
    (c ∈ (['t', 'h', 'd'] : List Char) →
      heatmap project data scale vmin vmax style ≠ .error .invalidStyle) := by
  refine ⟨by refine ⟨?_, ?_, ?_, ?_, ?_, ?_, by decide⟩ <;>
    with_unfolding_all rfl, ?_, ?_⟩
  · intro hc hv hw
    simp [heatmap, hv, hw, hs]
    intro h
    exact absurd h (by simpa using hc)
  · intro hc hcon
    have hor : c = 't' ∨ c = 'h' ∨ c = 'd' := by simpa using hc
    rcases hv : resolveVmin vmin data with ev | a'
    · simp [heatmap, hv] at hcon
      cases resolveVmin_error _ _ _ hv ▸ hcon
    · rcases hw : resolveVmax vmax data with ew | b'
      · simp [heatmap, hv, hw] at hcon
        cases resolveVmax_error _ _ _ hw ▸ hcon
      · rcases hpi : polygon_iterator project data scale c with ep | cells
        · simp [heatmap, hv, hw, hs, hpi] at hcon
          exact iterItems_error_ne project data scale c _ _ hpi (hcon hor)
        · simp [heatmap, hv, hw, hs, hpi] at hcon
          rcases hor with h | h | h
          · exact hcon.1 h
          · exact hcon.2.1 h
          · exact hcon.2.2 h

/-- Witness for C6: the style `"square"` (first letter `'s'`) raises the
invalid-style error on the concrete mapping `data3` with supplied nonzero
bounds. -/
theorem C6_style_resolution_witness :
    heatmap (fun p => p) data3 1 (some 1) (some 2) "square" =
      .error .invalidStyle :=
  (C6_style_resolution (fun p => p) data3 1 (some 1) (some 2) "square" 's'
      (some 1) (some 2) (by with_unfolding_all rfl)).2.1 (by decide)
    (by with_unfolding_all rfl) (by with_unfolding_all rfl)

/-! ### Order and extrema lemmas for the color range -/

theorem noneLt_irrefl (a : Value) : noneLt a a = false := by
  cases a <;> simp [noneLt]

theorem noneLt_trans (a b c : Value) (h1 : noneLt a b = true)
    (h2 : noneLt b c = true) : noneLt a c = true := by
  cases a <;> cases b <;> cases c <;> simp_all [noneLt]
  linarith

theorem noneLt_step (a b c : Value) (h1 : noneLt b a = false)
    (h2 : noneLt b c = true) : noneLt a c = true := by
  cases a <;> cases b <;> cases c <;> simp_all [noneLt]
  linarith

theorem noneLt_stepr (a b c : Value) (h1 : noneLt a b = false)
    (h2 : noneLt c b = true) : noneLt c a = true := by
  cases a <;> cases b <;> cases c <;> simp_all [noneLt]
  linarith

theorem foldlMin_spec :
    ∀ (xs : List Value) (acc : Value),
      (xs.foldl (fun acc v => if noneLt v acc then v else acc) acc = acc ∨
       xs.foldl (fun acc v => if noneLt v acc then v else acc) acc ∈ xs) ∧
      ∀ y ∈ acc :: xs,
        noneLt y (xs.foldl (fun acc v => if noneLt v acc then v else acc) acc)
          = false := by
  intro xs
  induction xs with
  | nil =>
    intro acc
    refine ⟨Or.inl rfl, ?_⟩
    intro y hy
    simp only [List.mem_singleton] at hy
    subst hy
    exact noneLt_irrefl y
  | cons v vs ih =>
    intro acc
    simp only [List.foldl_cons]
    by_cases hv : noneLt v acc = true
    · rw [if_pos hv]
      obtain ⟨hmem, hmin⟩ := ih v
      refine ⟨?_, ?_⟩
      · rcases hmem with h | h
        · rw [h]; right; exact List.mem_cons_self _ _
        · right; exact List.mem_cons_of_mem _ h
      · intro y hy
        rcases List.mem_cons.mp hy with rfl | hy'
        · by_contra hc
          rw [Bool.not_eq_false] at hc
          have hvr := hmin v (List.mem_cons_self _ _)
          rw [noneLt_trans _ _ _ hv hc] at hvr
          cases hvr
        · exact hmin y hy'
    · rw [if_neg hv]
      obtain ⟨hmem, hmin⟩ := ih acc
      refine ⟨?_, ?_⟩
      · rcases hmem with h | h
        · left; exact h
        · right; exact List.mem_cons_of_mem _ h
      · intro y hy
        rcases List.mem_cons.mp hy with rfl | hy'
        · exact hmin y (List.mem_cons_self _ _)
        · rcases List.mem_cons.mp hy' with rfl | hy''
          · by_contra hc
            rw [Bool.not_eq_false] at hc
            have hvr := hmin acc (List.mem_cons_self _ _)
            rw [noneLt_step _ _ _ (by simpa using hv) hc] at hvr
            cases hvr
          · exact hmin y (List.mem_cons_of_mem _ hy'')

theorem foldlMax_spec :
    ∀ (xs : List Value) (acc : Value),
      (xs.foldl (fun acc v => if noneLt acc v then v else acc) acc = acc ∨
       xs.foldl (fun acc v => if noneLt acc v then v else acc) acc ∈ xs) ∧
      ∀ y ∈ acc :: xs,
        noneLt (xs.foldl (fun acc v => if noneLt acc v then v else acc) acc) y
          = false := by
  intro xs
  induction xs with
  | nil =>
    intro acc
    refine ⟨Or.inl rfl, ?_⟩
    intro y hy
    simp only [List.mem_singleton] at hy
    subst hy
    exact noneLt_irrefl y
  | cons v vs ih =>
    intro acc
    simp only [List.foldl_cons]
    by_cases hv : noneLt acc v = true
    · rw [if_pos hv]
      obtain ⟨hmem, hmin⟩ := ih v
      refine ⟨?_, ?_⟩
      · rcases hmem with h | h
        · rw [h]; right; exact List.mem_cons_self _ _
        · right; exact List.mem_cons_of_mem _ h
      · intro y hy
        rcases List.mem_cons.mp hy with rfl | hy'
        · by_contra hc
          rw [Bool.not_eq_false] at hc
          have hvr := hmin v (List.mem_cons_self _ _)
          rw [noneLt_trans _ _ _ hc hv] at hvr
          cases hvr
        · exact hmin y hy'
    · rw [if_neg hv]
      obtain ⟨hmem, hmin⟩ := ih acc
      refine ⟨?_, ?_⟩
      · rcases hmem with h | h
        · left; exact h
        · right; exact List.mem_cons_of_mem _ h
      · intro y hy
        rcases List.mem_cons.mp hy with rfl | hy'
        · exact hmin y (List.mem_cons_self _ _)
        · rcases List.mem_cons.mp hy' with rfl | hy''
          · by_contra hc
            rw [Bool.not_eq_false] at hc
            have hvr := hmin acc (List.mem_cons_self _ _)
            rw [noneLt_stepr _ _ _ (by simpa using hv) hc] at hvr
            cases hvr
          · exact hmin y (List.mem_cons_of_mem _ hy'')

theorem pyMin_spec (x : Value) (xs : List Value) :
    ∃ r, pyMin (x :: xs) = .ok r ∧ r ∈ x :: xs ∧
      ∀ y ∈ x :: xs, noneLt y r = false := by
  obtain ⟨hmem, hmin⟩ := foldlMin_spec xs x
  refine ⟨_, rfl, ?_, hmin⟩
  rcases hmem with h | h
  · rw [h]; exact List.mem_cons_self _ _
  · exact List.mem_cons_of_mem _ h

theorem pyMax_spec (x : Value) (xs : List Value) :
    ∃ r, pyMax (x :: xs) = .ok r ∧ r ∈ x :: xs ∧
      ∀ y ∈ x :: xs, noneLt r y = false := by
  obtain ⟨hmem, hmin⟩ := foldlMax_spec xs x
  refine ⟨_, rfl, ?_, hmin⟩
  rcases hmem with h | h
  · rw [h]; exact List.mem_cons_self _ _
  · exact List.mem_cons_of_mem _ h

/-! ### C4 (amended) -/

/--
C4 amended: in the render driver `heatmap`, a supplied `vmin` (resp. `vmax`)
is used as given only when it is nonzero — `if not vmin` treats a supplied
`0` like an absent bound (see the counterexample) — and an absent bound is
derived from `min(data.values())` (resp. `max`).  When all stored values are
defined and at least one entry exists, the derived bounds are the minimum and
maximum of the stored values and satisfy `vmin ≤ vmax`; in particular for the
mapping `{(0,0): 1, (1,0): 2, (0,1): 3}` the derived range is
`vmin = 1`, `vmax = 3`.
-/
theorem C4_range_resolution (data : Data) (v : ℚ) :
    (v ≠ 0 → resolveVmin (some v) data = .ok (some v) ∧
      resolveVmax (some v) data = .ok (some v)) ∧
    (data ≠ [] → (∀ kv ∈ data, kv.2 ≠ none) →
      ∃ m M : ℚ, resolveVmin none data = .ok (some m) ∧
        resolveVmax none data = .ok (some M) ∧
        some m ∈ data.map (fun kv => kv.2) ∧
        some M ∈ data.map (fun kv => kv.2) ∧
        (∀ kv ∈ data, ∀ q : ℚ, kv.2 = some q → m ≤ q ∧ q ≤ M) ∧
        m ≤ M) ∧
    heatmap (fun _ => ()) data3 1 none none "hexagonal" =
      .ok (some 1, some 3, [([(), (), (), ()], 1), ([(), (), (), ()], 3),
        ([(), (), (), ()], 2)]) := by
  refine ⟨?_, ?_, by with_unfolding_all rfl⟩
  · intro hv
    constructor <;> simp [resolveVmin, resolveVmax, pyFalsy, hv]
  · intro hne hall
    rcases hd : data.map (fun kv => kv.2) with _ | ⟨x, xs⟩
    · exact absurd (List.map_eq_nil_iff.mp hd) hne
    · obtain ⟨r, hr, hrmem, hrmin⟩ := pyMin_spec x xs
      obtain ⟨s, hs, hsmem, hsmax⟩ := pyMax_spec x xs
      have hall' : ∀ y ∈ (x :: xs : List Value), y ≠ none := by
        rw [← hd]
        intro y hy
        obtain ⟨kv, hkv, rfl⟩ := List.mem_map.mp hy
        exact hall kv hkv
      obtain ⟨m, rfl⟩ : ∃ m, r = some m := by
        cases r
        · exact absurd rfl (hall' _ hrmem)
        · exact ⟨_, rfl⟩
      obtain ⟨M, rfl⟩ : ∃ M, s = some M := by
        cases s
        · exact absurd rfl (hall' _ hsmem)
        · exact ⟨_, rfl⟩
      refine ⟨m, M, ?_, ?_, ?_, ?_, ?_, ?_⟩
      · show resolveVmin none data = .ok (some m)
        unfold resolveVmin
        rw [if_pos (show pyFalsy none = true by rfl), hd]
        exact hr
      · show resolveVmax none data = .ok (some M)
        unfold resolveVmax
        rw [if_pos (show pyFalsy none = true by rfl), hd]
        exact hs
      · rw [hd]; exact hrmem
      · rw [hd]; exact hsmem
      · intro kv hkv q hq
        have hmem : (some q : Value) ∈ x :: xs := by
          rw [← hd]
          exact List.mem_map.mpr ⟨kv, hkv, by rw [hq]⟩
        constructor
        · simpa [noneLt, not_lt] using hrmin _ hmem
        · simpa [noneLt, not_lt] using hsmax _ hmem
      · simpa [noneLt, not_lt] using hsmax _ hrmem

/-- Witness for C4's amended theorem: a supplied nonzero bound is used as
given, and the derived range for `data3` is `(1, 3)`. -/
theorem C4_range_resolution_witness :
    resolveVmin (some 5) data3 = .ok (some 5) ∧
    resolveVmax (some 5) data3 = .ok (some 5) :=
  (C4_range_resolution data3 5).1 (by norm_num)

/-- C4 counterexample: the claim says an explicitly supplied `vmin` is used
as given, but a supplied `vmin = 0.0` is falsy and is replaced by the derived
minimum: for the mapping `{(0,0): 1}`, `heatmap` resolves a supplied
`vmin = 0` to `1`. -/
theorem C4_counterexample :
    resolveVmin (some 0) [([0, 0], some 1)] = .ok (some 1) ∧
    resolveVmin (some 0) [([0, 0], some 1)] ≠ .ok (some 0) := by
  refine ⟨by with_unfolding_all rfl, by with_unfolding_all decide⟩

/-! ### C3 -/

set_option maxHeartbeats 1600000 in
/--
C3: for every integer triple `(i, j, k)` with `i, j, k ≥ 0` and positive sum
(the scale), the seven cases — three corners (one coordinate equals the
scale), three edges (one coordinate zero and not a corner), interior (no
coordinate zero) — are mutually exclusive and exhaustive: exactly the class
`hexClass i j k` holds, where `hexClass` checks corners before edges exactly
as `hexagon_coordinates` does; and the polygon produced by
`hexagon_coordinates` has 4, 5, or 6 vertices according to that class.
-/
theorem C3_hexagon_classification (i j k : ℤ) (hi : 0 ≤ i) (hj : 0 ≤ j)
    (hk : 0 ≤ k) (hpos : 1 ≤ i + j + k) :
    (∀ t : ℕ, t < 7 → (hexCase i j k t ↔ t = hexClass i j k)) ∧
    (hexagon_coordinates i j k).length = hexCount (hexClass i j k) := by
  constructor
  · intro t ht
    unfold hexCase hexClass
    split_ifs <;> omega
  · unfold hexagon_coordinates hexClass hexCount
    split_ifs <;> first | rfl | omega

/-- Witness for C3 at the interior point `(1, 1, 1)` of scale 3. -/
theorem C3_hexagon_classification_witness :
    (∀ t : ℕ, t < 7 → (hexCase 1 1 1 t ↔ t = hexClass 1 1 1)) ∧
    (hexagon_coordinates 1 1 1).length = hexCount (hexClass 1 1 1) :=
  C3_hexagon_classification 1 1 1 (by decide) (by decide) (by decide)
    (by decide)

/-! ### Triangle geometry lemmas -/

theorem up_mem_iff (a b c : ℤ) (x y : ℚ) :
    inClosedTri ((triangle_coordinates a b c).map proj2) (x, y) ↔
      (a : ℚ) ≤ x ∧ (b : ℚ) ≤ y ∧ x + y ≤ (a : ℚ) + (b : ℚ) + 1 := by
  show inClosedTri [(a, b), (a + 1, b), (a, b + 1)] (x, y) ↔ _
  constructor
  · rintro ⟨l1, l2, l3, h1, h2, h3, hsum, hx, hy⟩
    simp only [toQ2] at hx hy
    push_cast at hx hy
    have hx' : x = a + l2 := by linear_combination hx + (a : ℚ) * hsum
    have hy' : y = b + l3 := by linear_combination hy + (b : ℚ) * hsum
    refine ⟨by linarith, by linarith, by linarith⟩
  · rintro ⟨hx, hy, hxy⟩
    refine ⟨(a : ℚ) + b + 1 - x - y, x - a, y - b, by linarith, by linarith,
      by linarith, by ring, ?_, ?_⟩ <;> simp only [toQ2] <;> push_cast <;> ring

theorem up_mem_open_iff (a b c : ℤ) (x y : ℚ) :
    inOpenTri ((triangle_coordinates a b c).map proj2) (x, y) ↔
      (a : ℚ) < x ∧ (b : ℚ) < y ∧ x + y < (a : ℚ) + (b : ℚ) + 1 := by
  show inOpenTri [(a, b), (a + 1, b), (a, b + 1)] (x, y) ↔ _
  constructor
  · rintro ⟨l1, l2, l3, h1, h2, h3, hsum, hx, hy⟩
    simp only [toQ2] at hx hy
    push_cast at hx hy
    have hx' : x = a + l2 := by linear_combination hx + (a : ℚ) * hsum
    have hy' : y = b + l3 := by linear_combination hy + (b : ℚ) * hsum
    refine ⟨by linarith, by linarith, by linarith⟩
  · rintro ⟨hx, hy, hxy⟩
    refine ⟨(a : ℚ) + b + 1 - x - y, x - a, y - b, by linarith, by linarith,
      by linarith, by ring, ?_, ?_⟩ <;> simp only [toQ2] <;> push_cast <;> ring

theorem down_mem_iff (a b c : ℤ) (x y : ℚ) :
    inClosedTri ((alt_triangle_coordinates a b c).map proj2) (x, y) ↔
      x ≤ (a : ℚ) + 1 ∧ y ≤ (b : ℚ) + 1 ∧ (a : ℚ) + (b : ℚ) + 1 ≤ x + y := by
  show inClosedTri [(a, b + 1), (a + 1, b + 1), (a + 1, b)] (x, y) ↔ _
  constructor
  · rintro ⟨l1, l2, l3, h1, h2, h3, hsum, hx, hy⟩
    simp only [toQ2] at hx hy
    push_cast at hx hy
    have hx' : x = a + l2 + l3 := by linear_combination hx + (a : ℚ) * hsum
    have hy' : y = b + l1 + l2 := by linear_combination hy + (b : ℚ) * hsum
    refine ⟨by linarith, by linarith, by linarith⟩
  · rintro ⟨hx, hy, hxy⟩
    refine ⟨(a : ℚ) + 1 - x, x + y - a - b - 1, (b : ℚ) + 1 - y, by linarith,
      by linarith, by linarith, by ring, ?_, ?_⟩ <;>
      simp only [toQ2] <;> push_cast <;> ring

theorem down_mem_open_iff (a b c : ℤ) (x y : ℚ) :
    inOpenTri ((alt_triangle_coordinates a b c).map proj2) (x, y) ↔
      x < (a : ℚ) + 1 ∧ y < (b : ℚ) + 1 ∧ (a : ℚ) + (b : ℚ) + 1 < x + y := by
  show inOpenTri [(a, b + 1), (a + 1, b + 1), (a + 1, b)] (x, y) ↔ _
  constructor
  · rintro ⟨l1, l2, l3, h1, h2, h3, hsum, hx, hy⟩
    simp only [toQ2] at hx hy
    push_cast at hx hy
    have hx' : x = a + l2 + l3 := by linear_combination hx + (a : ℚ) * hsum
    have hy' : y = b + l1 + l2 := by linear_combination hy + (b : ℚ) * hsum
    refine ⟨by linarith, by linarith, by linarith⟩
  · rintro ⟨hx, hy, hxy⟩
    refine ⟨(a : ℚ) + 1 - x, x + y - a - b - 1, (b : ℚ) + 1 - y, by linarith,
      by linarith, by linarith, by ring, ?_, ?_⟩ <;>
      simp only [toQ2] <;> push_cast <;> ring

theorem up_up_open_disjoint (c c' i j i' j' : ℤ) (x y : ℚ)
    (h : inOpenTri ((triangle_coordinates i j c).map proj2) (x, y))
    (h' : inOpenTri ((triangle_coordinates i' j' c').map proj2) (x, y)) :
    i = i' ∧ j = j' := by
  rw [up_mem_open_iff] at h h'
  obtain ⟨hx, hy, hxy⟩ := h
  obtain ⟨hx', hy', hxy'⟩ := h'
  have h1 : (i' : ℚ) < (i : ℚ) + 1 := by linarith
  have h2 : (i : ℚ) < (i' : ℚ) + 1 := by linarith
  have h3 : (j' : ℚ) < (j : ℚ) + 1 := by linarith
  have h4 : (j : ℚ) < (j' : ℚ) + 1 := by linarith
  have h1' : i' < i + 1 := by exact_mod_cast h1
  have h2' : i < i' + 1 := by exact_mod_cast h2
  have h3' : j' < j + 1 := by exact_mod_cast h3
  have h4' : j < j' + 1 := by exact_mod_cast h4
  omega

theorem down_down_open_disjoint (c c' i j i' j' : ℤ) (x y : ℚ)
    (h : inOpenTri ((alt_triangle_coordinates i j c).map proj2) (x, y))
    (h' : inOpenTri ((alt_triangle_coordinates i' j' c').map proj2) (x, y)) :
    i = i' ∧ j = j' := by
  rw [down_mem_open_iff] at h h'
  obtain ⟨hx, hy, hxy⟩ := h
  obtain ⟨hx', hy', hxy'⟩ := h'
  have h1 : (i' : ℚ) < (i : ℚ) + 1 := by linarith
  have h2 : (i : ℚ) < (i' : ℚ) + 1 := by linarith
  have h3 : (j' : ℚ) < (j : ℚ) + 1 := by linarith
  have h4 : (j : ℚ) < (j' : ℚ) + 1 := by linarith
  have h1' : i' < i + 1 := by exact_mod_cast h1
  have h2' : i < i' + 1 := by exact_mod_cast h2
  have h3' : j' < j + 1 := by exact_mod_cast h3
  have h4' : j < j' + 1 := by exact_mod_cast h4
  omega

theorem up_down_open_disjoint (c c' i j i' j' : ℤ) (x y : ℚ)
    (h : inOpenTri ((triangle_coordinates i j c).map proj2) (x, y))
    (h' : inOpenTri ((alt_triangle_coordinates i' j' c').map proj2) (x, y)) :
    False := by
  rw [up_mem_open_iff] at h
  rw [down_mem_open_iff] at h'
  obtain ⟨hx, hy, hxy⟩ := h
  obtain ⟨hx', hy', hxy'⟩ := h'
  have h1 : (i' : ℚ) < (i : ℚ) + 1 := by linarith
  have h2 : (i : ℚ) < (i' : ℚ) + 1 := by linarith
  have h3 : (j' : ℚ) < (j : ℚ) + 1 := by linarith
  have h4 : (j : ℚ) < (j' : ℚ) + 1 := by linarith
  have h1' : i' < i + 1 := by exact_mod_cast h1
  have h2' : i < i' + 1 := by exact_mod_cast h2
  have h3' : j' < j + 1 := by exact_mod_cast h3
  have h4' : j < j' + 1 := by exact_mod_cast h4
  have hii : i = i' := by omega
  have hjj : j = j' := by omega
  subst hii
  subst hjj
  linarith

theorem simplex_coverage (n : ℤ) (x y : ℚ) (hx : 0 ≤ x) (hy : 0 ≤ y)
    (hxy : x + y ≤ (n : ℚ)) :
    ∃ a b : ℤ, 0 ≤ a ∧ 0 ≤ b ∧
      ((0 ≤ n - a - b ∧
        inClosedTri ((triangle_coordinates a b (n - a - b)).map proj2) (x, y)) ∨
       (1 ≤ n - a - b ∧
        inClosedTri ((alt_triangle_coordinates a b (n - a - b)).map proj2)
          (x, y))) := by
  refine ⟨⌊x⌋, ⌊y⌋, Int.floor_nonneg.mpr hx, Int.floor_nonneg.mpr hy, ?_⟩
  have hfx : (⌊x⌋ : ℚ) ≤ x := Int.floor_le x
  have hfy : (⌊y⌋ : ℚ) ≤ y := Int.floor_le y
  have hfx' : x < (⌊x⌋ : ℚ) + 1 := Int.lt_floor_add_one x
  have hfy' : y < (⌊y⌋ : ℚ) + 1 := Int.lt_floor_add_one y
  by_cases hcase : x + y ≤ (⌊x⌋ : ℚ) + (⌊y⌋ : ℚ) + 1
  · left
    refine ⟨?_, (up_mem_iff _ _ _ _ _).mpr ⟨hfx, hfy, hcase⟩⟩
    have hq : (⌊x⌋ : ℚ) + (⌊y⌋ : ℚ) ≤ (n : ℚ) := by linarith
    have hz : ⌊x⌋ + ⌊y⌋ ≤ n := by exact_mod_cast hq
    omega
  · right
    push_neg at hcase
    refine ⟨?_, (down_mem_iff _ _ _ _ _).mpr
      ⟨by linarith, by linarith, by linarith⟩⟩
    have hq : (⌊x⌋ : ℚ) + (⌊y⌋ : ℚ) + 1 < (n : ℚ) := by linarith
    have hz : ⌊x⌋ + ⌊y⌋ + 1 < n := by exact_mod_cast hq
    omega

/-! ### C8 (amended) -/

/--
C8 amended: for every scale `n`, the upright triangles over anchors `(i, j)`
with `k = n - i - j ≥ 0` and the inverted triangles over anchors with
`k - 1 ≥ 0` cover the whole simplex — every point `(x, y)` of the simplex
region lies in a generated (closed) triangle — and no two distinct generated
triangles overlap: distinct anchors give triangles with disjoint interiors
(and distinct projected vertex lists), and an upright and an inverted
triangle never share an interior point; moreover every unit cell contained
in the simplex is generated by an enumerated anchor.  But the tiling is not
exact as claimed: a generated triangle lies inside the simplex exactly when
`k ≥ 1` (upright) respectively `k ≥ 2` (inverted), so the claimed ranges
also generate triangles that stick out beyond the simplex (the upright
`k = 0` and inverted `k = 1` rows; see the counterexample); restricted to
`k ≥ 1` and `k ≥ 2` the generated triangles are exactly the unit cells of
the simplex, each exactly once.
-/
theorem C8_tiling_amended (n i j i' j' : ℤ) (x y : ℚ) :
    ((0 ≤ i ∧ 0 ≤ j ∧ 0 ≤ n - i - j) → (0 ≤ i' ∧ 0 ≤ j' ∧ 0 ≤ n - i' - j') →
      (triangle_coordinates i j (n - i - j)).map proj2 =
        (triangle_coordinates i' j' (n - i' - j')).map proj2 →
      i = i' ∧ j = j') ∧
    ((0 ≤ i ∧ 0 ≤ j ∧ 1 ≤ n - i - j) → (0 ≤ i' ∧ 0 ≤ j' ∧ 1 ≤ n - i' - j') →
      (alt_triangle_coordinates i j (n - i - j)).map proj2 =
        (alt_triangle_coordinates i' j' (n - i' - j')).map proj2 →
      i = i' ∧ j = j') ∧
    ((triangle_coordinates i j (n - i - j)).map proj2 ≠
      (alt_triangle_coordinates i' j' (n - i' - j')).map proj2) ∧
    (inSimplex n ((triangle_coordinates i j (n - i - j)).map proj2) ↔
      0 ≤ i ∧ 0 ≤ j ∧ 1 ≤ n - i - j) ∧
    (inSimplex n ((alt_triangle_coordinates i j (n - i - j)).map proj2) ↔
      0 ≤ i ∧ 0 ≤ j ∧ 2 ≤ n - i - j) ∧
    (0 ≤ i ∧ 0 ≤ j ∧ 1 ≤ n - i - j → 0 ≤ n - i - j) ∧
    (0 ≤ i ∧ 0 ≤ j ∧ 2 ≤ n - i - j → 1 ≤ n - i - j) ∧
    (0 ≤ x → 0 ≤ y → x + y ≤ (n : ℚ) →
      ∃ a b : ℤ, 0 ≤ a ∧ 0 ≤ b ∧
        ((0 ≤ n - a - b ∧
          inClosedTri ((triangle_coordinates a b (n - a - b)).map proj2)
            (x, y)) ∨
         (1 ≤ n - a - b ∧
          inClosedTri ((alt_triangle_coordinates a b (n - a - b)).map proj2)
            (x, y)))) ∧
    (¬(i = i' ∧ j = j') →
      ¬(inOpenTri ((triangle_coordinates i j (n - i - j)).map proj2) (x, y) ∧
        inOpenTri ((triangle_coordinates i' j' (n - i' - j')).map proj2)
          (x, y))) ∧
    (¬(i = i' ∧ j = j') →
      ¬(inOpenTri ((alt_triangle_coordinates i j (n - i - j)).map proj2)
          (x, y) ∧
        inOpenTri ((alt_triangle_coordinates i' j' (n - i' - j')).map proj2)
          (x, y))) ∧
    (¬(inOpenTri ((triangle_coordinates i j (n - i - j)).map proj2) (x, y) ∧
       inOpenTri ((alt_triangle_coordinates i' j' (n - i' - j')).map proj2)
         (x, y))) ∧
    (inSimplex n ((triangle_coordinates i j (n - i - j)).map proj2) →
      ∃ a b : ℤ, 0 ≤ a ∧ 0 ≤ b ∧ 0 ≤ n - a - b ∧
        (triangle_coordinates a b (n - a - b)).map proj2 =
          (triangle_coordinates i j (n - i - j)).map proj2) ∧
    (inSimplex n ((alt_triangle_coordinates i j (n - i - j)).map proj2) →
      ∃ a b : ℤ, 0 ≤ a ∧ 0 ≤ b ∧ 1 ≤ n - a - b ∧
        (alt_triangle_coordinates a b (n - a - b)).map proj2 =
          (alt_triangle_coordinates i j (n - i - j)).map proj2) := by
  refine ⟨?_, ?_, ?_, ?_, ?_, ?_, ?_, ?_, ?_, ?_, ?_, ?_, ?_⟩
  · simp only [triangle_coordinates, proj2, List.map_cons, List.map_nil,
      List.cons.injEq, Prod.mk.injEq, and_true]
    omega
  · simp only [alt_triangle_coordinates, proj2, List.map_cons, List.map_nil,
      List.cons.injEq, Prod.mk.injEq, and_true]
    omega
  · simp only [triangle_coordinates, alt_triangle_coordinates, proj2,
      List.map_cons, List.map_nil, List.cons.injEq, Prod.mk.injEq, ne_eq]
    omega
  · simp only [triangle_coordinates, proj2, inSimplex, List.map_cons,
      List.map_nil, List.mem_cons, List.not_mem_nil, or_false,
      forall_eq_or_imp, forall_eq]
    omega
  · simp only [alt_triangle_coordinates, proj2, inSimplex, List.map_cons,
      List.map_nil, List.mem_cons, List.not_mem_nil, or_false,
      forall_eq_or_imp, forall_eq]
    omega
  · omega
  · omega
  · exact fun hx hy hxy => simplex_coverage n x y hx hy hxy
  · intro hne hboth
    exact hne (up_up_open_disjoint _ _ _ _ _ _ _ _ hboth.1 hboth.2)
  · intro hne hboth
    exact hne (down_down_open_disjoint _ _ _ _ _ _ _ _ hboth.1 hboth.2)
  · intro hboth
    exact up_down_open_disjoint _ _ _ _ _ _ _ _ hboth.1 hboth.2
  · intro h
    simp only [triangle_coordinates, proj2, inSimplex, List.map_cons,
      List.map_nil, List.mem_cons, List.not_mem_nil, or_false,
      forall_eq_or_imp, forall_eq] at h
    exact ⟨i, j, by omega, by omega, by omega, rfl⟩
  · intro h
    simp only [alt_triangle_coordinates, proj2, inSimplex, List.map_cons,
      List.map_nil, List.mem_cons, List.not_mem_nil, or_false,
      forall_eq_or_imp, forall_eq] at h
    exact ⟨i, j, by omega, by omega, by omega, rfl⟩

/-- Witness for C8's amended theorem: at scale 2 the upright triangle at
anchor `(0, 0)` (`k = 2 ≥ 1`) lies inside the simplex. -/
theorem C8_tiling_amended_witness :
    inSimplex 2 ((triangle_coordinates 0 0 (2 - 0 - 0)).map proj2) :=
  ((C8_tiling_amended 2 0 0 0 0 0 0).2.2.2.1).mpr (by decide)

end TernaryHeatmap
